import Mathlib

/-!
Verification of the adeqt interactive-console widget (`adeqt.py`).

The development shallowly embeds the non-GUI logic of the repository:

* `tokenize_maybe_incomplete`, `get_dotted_name` — the tokenizer-driven
  dotted-name extraction used for completion (adeqt.py lines 60-99);
* `find_child_names` — namespace introspection for completion candidates
  (lines 183-200);
* `add_prompt` — prompt decoration of echoed code (lines 39-41);
* `capture_output` — scoped substitution of stdout/stderr/displayhook
  (lines 245-258);
* `run` — the parse / split / compile / clear / execute pipeline
  (lines 260-304).

External dependencies (the CPython standard library's `tokenize` module,
`str` methods, `dir`, `getattr`, `sorted`, and the parser / compiler /
`exec` runtime) are modelled explicitly: string methods and the tokenizer
as executable Lean functions over `List Char` that mirror CPython's
documented behaviour on the ASCII fragment the widget deals with, and the
parse/compile/exec runtime as an abstract environment (`PyEnv`) that the
pipeline is parametric over.
-/

/-! ## Python string primitives (models of `str` methods used by the code) -/

/-- Model of CPython `str.isspace` membership for a single character
(ASCII whitespace; the code only meets ASCII input). -/
def isPySpace (c : Char) : Bool :=
  c = ' ' || c = '\t' || c = '\n' || c = '\r' || c = '\x0b' || c = '\x0c'

/-- Model of CPython `s.isspace()`: true iff `s` is non-empty and all of
its characters are whitespace. -/
def pyIsSpace (s : String) : Bool :=
  !s.isEmpty && s.data.all isPySpace

/-- Model of CPython `s.rstrip()`: drop trailing whitespace. -/
def pyRstrip (s : String) : String :=
  String.mk ((s.data.reverse.dropWhile isPySpace).reverse)

/-- Model of CPython `s[n:]` slicing: drop the first `n` characters. -/
def pyDrop (s : String) (n : Nat) : String :=
  String.mk (s.data.drop n)

/-- Helper for `str.splitlines`: accumulate the current line (reversed) and
split at `\r\n`, `\r` or `\n`, keeping the line terminators when
`keepends` is set. -/
def splitlinesAux (keepends : Bool) : List Char → List Char → List String
  | [], acc => if acc.isEmpty then [] else [String.mk acc.reverse]
  | '\r' :: '\n' :: rest, acc =>
      String.mk (acc.reverse ++ (if keepends then ['\r', '\n'] else []))
        :: splitlinesAux keepends rest []
  | '\r' :: rest, acc =>
      String.mk (acc.reverse ++ (if keepends then ['\r'] else []))
        :: splitlinesAux keepends rest []
  | '\n' :: rest, acc =>
      String.mk (acc.reverse ++ (if keepends then ['\n'] else []))
        :: splitlinesAux keepends rest []
  | c :: rest, acc => splitlinesAux keepends rest (c :: acc)

/-- Model of CPython `s.splitlines()` (line boundaries restricted to
`\n`, `\r`, `\r\n`). -/
def pySplitlines (s : String) : List String :=
  splitlinesAux false s.data []

/-- Model of CPython `s.splitlines(keepends=True)`. -/
def pySplitlinesKeepends (s : String) : List String :=
  splitlinesAux true s.data []

/-! ## `add_prompt` (adeqt.py lines 39-41)

```python
def add_prompt(code: str):
    lines = code.rstrip().splitlines(keepends=True)
    return ''.join(['>>> ' + lines[0]] + ['... ' + l for l in lines[1:]]) + '\n'
```

`lines[0]` raises `IndexError` when `lines` is empty (blank `code`), so the
embedding returns `Option String`, `none` meaning the uncaught exception. -/

def add_prompt (code : String) : Option String :=
  let lines := pySplitlinesKeepends (pyRstrip code)
  match lines with
  | [] => none
  | l0 :: rest =>
      some (String.join ((">>> " ++ l0) :: rest.map (fun l => "... " ++ l)) ++ "\n")

/-! ## Token model (models of the stdlib `tokenize` module's data)

`tokenize.TokenInfo` carries `type, string, start, end, line`; the widget
never reads `line`, so it is not modelled.  The `IncompleteToken` subclass
that `tokenize_maybe_incomplete` synthesizes is modelled by the extra
`incomplete` flag.  `exact_type` refines `OP` tokens (`.` becomes `DOT`),
exactly as CPython's `TokenInfo.exact_type` does. -/

inductive TokType where
  | NAME | NUMBER | STRING | OP | DOT | NEWLINE | NL | COMMENT | ENDMARKER
deriving DecidableEq

structure TokenInfo where
  type : TokType
  string : String
  start : Nat × Nat
  end_ : Nat × Nat
  incomplete : Bool
deriving DecidableEq

/-- Model of `TokenInfo.exact_type`: `OP` tokens whose text is `"."` report
the exact type `DOT`; every other token reports its `type`. -/
def TokenInfo.exact_type (t : TokenInfo) : TokType :=
  if t.type = TokType.OP ∧ t.string = "." then TokType.DOT else t.type

def mkTok (ty : TokType) (s : String) (b e : Nat × Nat) : TokenInfo :=
  ⟨ty, s, b, e, false⟩

/-! ## Tokenizer (model of stdlib `tokenize.generate_tokens`)

Executable model of CPython's tokenizer on the ASCII fragment the widget
handles: names, numbers, single-line `'…'`/`"…"` strings, one-character
operators, comments, bracket nesting and physical newlines (`NEWLINE` at
bracket depth 0, `NL` inside brackets).  The `Bool` result is `true` when
the generator raises `tokenize.TokenError` — a truncation fault: end of
input inside an open bracket, or an unterminated string.  Positions are
1-based rows and 0-based columns, as in CPython.  Recursion is by fuel;
`generate_tokens` supplies enough fuel that the `0` branch is never hit. -/

def isIdentStart (c : Char) : Bool := c.isAlpha || c = '_'
def isIdentCont (c : Char) : Bool := c.isAlphanum || c = '_'
def isNumCont (c : Char) : Bool := c.isDigit || c = '.'
def isOpenBracket (c : Char) : Bool := c = '(' || c = '[' || c = '\x7b'
def isCloseBracket (c : Char) : Bool := c = ')' || c = ']' || c = '\x7d'

def scanTokens : Nat → List Char → Nat → Nat → Nat → List TokenInfo × Bool
  | 0, _, _, _, _ => ([], true)
  | _ + 1, [], row, col, depth =>
      if 0 < depth then ([], true)
      else ([mkTok TokType.ENDMARKER "" (row, col) (row, col)], false)
  | fuel + 1, c :: cs, row, col, depth =>
      if c = ' ' || c = '\t' || c = '\x0c' || c = '\r' then
        scanTokens fuel cs row (col + 1) depth
      else if c = '\n' then
        let t := mkTok (if depth = 0 then TokType.NEWLINE else TokType.NL) "\n"
                   (row, col) (row, col + 1)
        match scanTokens fuel cs (row + 1) 0 depth with
        | (ts, e) => (t :: ts, e)
      else if c = '#' then
        let body := cs.takeWhile (fun ch => ch ≠ '\n')
        let t := mkTok TokType.COMMENT (String.mk (c :: body))
                   (row, col) (row, col + 1 + body.length)
        match scanTokens fuel (cs.dropWhile (fun ch => ch ≠ '\n'))
                row (col + 1 + body.length) depth with
        | (ts, e) => (t :: ts, e)
      else if isIdentStart c then
        let body := cs.takeWhile isIdentCont
        let t := mkTok TokType.NAME (String.mk (c :: body))
                   (row, col) (row, col + 1 + body.length)
        match scanTokens fuel (cs.dropWhile isIdentCont)
                row (col + 1 + body.length) depth with
        | (ts, e) => (t :: ts, e)
      else if c.isDigit then
        let body := cs.takeWhile isNumCont
        let t := mkTok TokType.NUMBER (String.mk (c :: body))
                   (row, col) (row, col + 1 + body.length)
        match scanTokens fuel (cs.dropWhile isNumCont)
                row (col + 1 + body.length) depth with
        | (ts, e) => (t :: ts, e)
      else if c = '\'' || c = '"' then
        let inner := cs.takeWhile (fun ch => ch ≠ c && ch ≠ '\n')
        match cs.dropWhile (fun ch => ch ≠ c && ch ≠ '\n') with
        | q :: rest =>
            if q = c then
              let t := mkTok TokType.STRING (String.mk (c :: inner ++ [c]))
                         (row, col) (row, col + 2 + inner.length)
              match scanTokens fuel rest row (col + 2 + inner.length) depth with
              | (ts, e) => (t :: ts, e)
            else ([], true)   -- newline inside a single-line string literal
        | [] => ([], true)    -- end of input inside a string literal
      else
        let depth' := if isOpenBracket c then depth + 1
                      else if isCloseBracket c then depth - 1 else depth
        let t := mkTok TokType.OP (String.mk [c]) (row, col) (row, col + 1)
        match scanTokens fuel cs row (col + 1) depth' with
        | (ts, e) => (t :: ts, e)

/-- Model of `tokenize.generate_tokens(io.StringIO(code).readline)` run to
completion: the yielded tokens, paired with `true` when the generator ends
by raising `tokenize.TokenError` (truncated input) instead of
`StopIteration`. -/
def generate_tokens (code : String) : List TokenInfo × Bool :=
  scanTokens (code.length + 1) code.data 1 0 0

/-! ## `tokenize_maybe_incomplete` (adeqt.py lines 60-78)

```python
def tokenize_maybe_incomplete(code: str):
    gen = tokenize.generate_tokens(io.StringIO(code).readline)
    last_end = (1, 0)
    while True:
        try:
            tok: tokenize.TokenInfo = next(gen)
        except StopIteration:
            break
        except tokenize.TokenError:
            lines = [None] + code.splitlines()
            row, col = last_end
            s = lines[row][col:] + ''.join(lines[row + 1:])
            if s and not s.isspace():
                start = last_end
                end = (len(lines) - 1, len(lines[-1]))
                yield IncompleteToken(tokenize.STRING, s, start, end, lines[row])
        else:
            last_end = tok.end
            yield tok
```

`last_end` when the generator raises is the `end` of the last yielded
token (initially `(1, 0)`). -/

/-- The `last_end` variable at the moment the generator raises: end of the
last successfully yielded token, `(1, 0)` if none was yielded. -/
def lastEnd (toks : List TokenInfo) : Nat × Nat :=
  match toks.getLast? with
  | some t => t.end_
  | none => (1, 0)

/-- The string `s = lines[row][col:] + ''.join(lines[row + 1:])` computed in
the `TokenError` handler: the unconsumed remainder of `code` (note that the
join drops the newline characters between the remaining physical lines,
exactly as the source does). -/
def untokenized (code : String) (toks : List TokenInfo) : String :=
  let lines := pySplitlines code
  let row := (lastEnd toks).1
  let col := (lastEnd toks).2
  pyDrop (lines.getD (row - 1) "") col ++ String.join (lines.drop row)

def tokenize_maybe_incomplete (code : String) : List TokenInfo :=
  match generate_tokens code with
  | (toks, false) => toks
  | (toks, true) =>
      let s := untokenized code toks
      if !s.isEmpty && !pyIsSpace s then
        let lines := pySplitlines code
        toks ++ [⟨TokType.STRING, s, lastEnd toks,
                  (lines.length, (lines.getLastD "").length), true⟩]
      else toks

/-! ## `get_dotted_name` (adeqt.py lines 81-99)

```python
def get_dotted_name(code: str):
    name_parts = []
    trailing_dot = False
    for token in tokenize_maybe_incomplete(code):
        if token.type == tokenize.NAME:
            trailing_dot = False
            name_parts.append(token.string)
        elif token.type in (tokenize.NEWLINE, tokenize.NL, tokenize.ENDMARKER):
            # Some combination of these is added at the end of the input
            pass
        elif token.exact_type == tokenize.DOT:
            trailing_dot = True
        else:
            trailing_dot = False
            name_parts.clear()

    if trailing_dot or not name_parts:
        name_parts.append('')
    return tuple(name_parts)
```

The loop body is the fold step `dotted_step` over the state
`(name_parts, trailing_dot)`; the returned tuple is modelled as a
`List String`. -/

def dotted_step (st : List String × Bool) (token : TokenInfo) : List String × Bool :=
  if token.type = TokType.NAME then (st.1 ++ [token.string], false)
  else if token.type = TokType.NEWLINE ∨ token.type = TokType.NL ∨
          token.type = TokType.ENDMARKER then st
  else if token.exact_type = TokType.DOT then (st.1, true)
  else ([], false)

def get_dotted_name (code : String) : List String :=
  let st := (tokenize_maybe_incomplete code).foldl dotted_step ([], false)
  if st.2 || st.1.isEmpty then st.1 ++ [""] else st.1

/-! ## String ordering and Python `sorted` (models)

CPython compares strings lexicographically by code point; `sorted` is a
stable ascending sort, which `List.insertionSort` over a total transitive
`≤`-style relation reproduces exactly. -/

def charListLe : List Char → List Char → Bool
  | [], _ => true
  | _ :: _, [] => false
  | a :: as, b :: bs => if a = b then charListLe as bs else decide (a < b)

/-- Model of CPython `str.__le__`: code-point lexicographic order. -/
def pyStrLe (a b : String) : Bool :=
  charListLe a.data b.data

theorem charListLe_total (a b : List Char) :
    charListLe a b = true ∨ charListLe b a = true := by
  induction a generalizing b with
  | nil => exact Or.inl rfl
  | cons x xs ih =>
    cases b with
    | nil => exact Or.inr rfl
    | cons y ys =>
      by_cases hxy : x = y
      · subst hxy
        simpa [charListLe] using ih ys
      · rcases lt_trichotomy x y with h | h | h
        · exact Or.inl (by simp [charListLe, hxy, h])
        · exact absurd h hxy
        · have hne : y ≠ x := ne_of_lt h
          exact Or.inr (by simp [charListLe, hne, h])

theorem charListLe_trans {a b c : List Char} (hab : charListLe a b = true)
    (hbc : charListLe b c = true) : charListLe a c = true := by
  induction a generalizing b c with
  | nil => rfl
  | cons x xs ih =>
    cases b with
    | nil => simp [charListLe] at hab
    | cons y ys =>
      cases c with
      | nil => simp [charListLe] at hbc
      | cons z zs =>
        by_cases hxy : x = y
        · subst hxy
          by_cases hyz : x = z
          · subst hyz
            simp only [charListLe, if_pos rfl] at hab hbc ⊢
            exact ih hab hbc
          · simp only [charListLe, if_pos rfl] at hab
            simp only [charListLe, if_neg hyz] at hbc ⊢
            exact hbc
        · by_cases hyz : y = z
          · subst hyz
            simp only [charListLe, if_neg hxy] at hab ⊢
            exact hab
          · simp only [charListLe, if_neg hxy, decide_eq_true_eq] at hab
            simp only [charListLe, if_neg hyz, decide_eq_true_eq] at hbc
            have hxz : x < z := lt_trans hab hbc
            simp [charListLe, ne_of_lt hxz, hxz]

/-- The relation `sorted` uses for plain strings. -/
def strRel (a b : String) : Prop := pyStrLe a b = true

instance : DecidableRel strRel := fun a b => by
  unfold strRel; infer_instance

instance : IsTotal String strRel :=
  ⟨fun a b => charListLe_total a.data b.data⟩

instance : IsTrans String strRel :=
  ⟨fun _ _ _ hab hbc => charListLe_trans hab hbc⟩

/-- Model of CPython `sorted` on strings (default key): stable ascending
sort by code-point order. -/
def pySorted (l : List String) : List String :=
  l.insertionSort strRel

/-! ## Objects, `dir`, `getattr` (models of the host object model)

A live object is modelled by its attribute table; `dir` enumerates
attribute names sorted ascending, `getattr(obj, name, default)` looks the
name up, as CPython's reflection does.  The `builtins` module is modelled
as an object whose attributes are the built-in names. -/

inductive Obj where
  | mk (attrs : List (String × Obj))

def Obj.attrs : Obj → List (String × Obj)
  | .mk a => a

/-- Model of `dir(o)`: the object's attribute names, ascending-sorted. -/
def pyDir (o : Obj) : List String :=
  pySorted (o.attrs.map Prod.fst)

/-- Model of `getattr(o, name, missing)`, `none` playing `missing`. -/
def pyGetattr (o : Obj) (name : String) : Option Obj :=
  o.attrs.lookup name

/-! ## `find_child_names` (adeqt.py lines 183-200)

```python
def find_child_names(self, name_parts):
    if not name_parts:
        return sorted(list(self.namespace) + dir(builtins))

    missing = object()
    obj = self.namespace.get(name_parts[0], missing)
    if obj is missing:
        obj = getattr(builtins, name_parts[0], missing)
    if obj is missing:
        return []

    for name in name_parts[1:]:
        obj = getattr(obj, name, missing)
        if obj is missing:
            return []

    # Sort 'name' before '_name' before '__name', and case-insensitive
    return sorted(dir(obj), key=lambda n: (len(n) - len(n.lstrip('_')), n.lower()))
```

The session namespace dict is modelled as an association list (`list(ns)`
is its key list, `ns.get` the lookup); `builtins` is an `Obj` parameter. -/

/-- Model of `n.lstrip('_')`. -/
def pyLstripUnderscore (s : String) : String :=
  String.mk (s.data.dropWhile (fun c => c = '_'))

/-- The first sort-key component `len(n) - len(n.lstrip('_'))`: the number
of leading underscores. -/
def underscoreKey (n : String) : Nat :=
  n.length - (pyLstripUnderscore n).length

/-- The two-component key `(len(n) - len(n.lstrip('_')), n.lower())` of the
`find_child_names` sort. -/
def childKey (n : String) : Nat × String :=
  (underscoreKey n, n.toLower)

/-- Python's tuple comparison of the keys: lexicographic on
(underscore count, lowercased name). -/
def childLe (a b : String) : Bool :=
  decide ((childKey a).1 < (childKey b).1) ||
    (decide ((childKey a).1 = (childKey b).1) && pyStrLe (childKey a).2 (childKey b).2)

/-- The relation the attribute sort uses. -/
def childRel (a b : String) : Prop := childLe a b = true

instance : DecidableRel childRel := fun a b => by
  unfold childRel; infer_instance

instance : IsTotal String childRel := by
  constructor
  intro a b
  unfold childRel childLe
  rcases Nat.lt_trichotomy (childKey a).1 (childKey b).1 with h | h | h
  · left; simp [h]
  · rcases charListLe_total (childKey a).2.data (childKey b).2.data with hs | hs
    · left; simp [h, pyStrLe, hs]
    · right; simp [h, pyStrLe, hs]
  · right; simp [h]

instance : IsTrans String childRel := by
  constructor
  intro a b c hab hbc
  unfold childRel childLe at hab hbc ⊢
  simp only [Bool.or_eq_true, Bool.and_eq_true, decide_eq_true_eq] at hab hbc ⊢
  rcases hab with hab | ⟨hab, hab2⟩ <;> rcases hbc with hbc | ⟨hbc, hbc2⟩
  · exact Or.inl (Nat.lt_trans hab hbc)
  · exact Or.inl (hbc ▸ hab)
  · exact Or.inl (hab ▸ hbc)
  · exact Or.inr ⟨hab.trans hbc, charListLe_trans hab2 hbc2⟩

/-- The `for name in name_parts[1:]` attribute walk of `find_child_names`;
`none` when any attribute along the chain is missing. -/
def resolveAttrs : Obj → List String → Option Obj
  | o, [] => some o
  | o, n :: rest =>
      match pyGetattr o n with
      | none => none
      | some o2 => resolveAttrs o2 rest

/-- The lookup of `name_parts[0]`: the session namespace first
(`self.namespace.get`), falling back to `getattr(builtins, ..., missing)`
(lines 188-190). -/
def resolveFirst (ns : List (String × Obj)) (builtins : Obj) (p0 : String) :
    Option Obj :=
  match ns.lookup p0 with
  | some o => some o
  | none => pyGetattr builtins p0

def find_child_names (ns : List (String × Obj)) (builtins : Obj)
    (name_parts : List String) : List String :=
  match name_parts with
  | [] => pySorted (ns.map Prod.fst ++ pyDir builtins)
  | p0 :: rest =>
      match resolveFirst ns builtins p0 with
      | none => []
      | some obj =>
          match resolveAttrs obj rest with
          | none => []
          | some o => (pyDir o).insertionSort childRel

/-! ## Execution pipeline state model (adeqt.py lines 203-304)

The widget state the pipeline touches: the entry buffer
(`self.entry`, read by `toPlainText`, cleared by `clear`), the scrollback
(`self.display`, appended to by `self.write`) and the session namespace
(mutated in place by `exec`; its contents are opaque here, so it is a type
parameter).  The host language runtime — `ast.parse`, `compile`, `exec` —
is an abstract environment `PyEnv`: `parse` yields the module body or a
formatted syntax error, `compileUnit` yields a code object (a `Nat` id) or
a formatted compile error, and `runUnit` runs one code object against the
namespace, producing the text it wrote through the redirected streams, the
namespace afterwards, and a formatted traceback when it raised.

A top-level statement is only inspected for `isinstance(stmt, ast.Expr)`,
so `PyStmt` records just that shape plus an identifying tag.  `run` also
returns an event trace (text written, buffer cleared, unit compiled /
executed) so that ordering claims can be stated; `none` models an uncaught
exception escaping `run`. -/

inductive PyStmt where
  | exprStmt (tag : Nat)
  | otherStmt (tag : Nat)
deriving DecidableEq

inductive CompileUnit where
  | execModule (body : List PyStmt)
  | single (e : PyStmt)
deriving DecidableEq

inductive Event where
  | wrote (s : String)
  | compiledUnits (us : List CompileUnit)
  | clearedEntry
  | execUnit (c : Nat)
deriving DecidableEq

structure ExecEffect (Ns : Type) where
  output : String
  nsAfter : Ns
  error : Option String

structure PyEnv (Ns : Type) where
  parse : String → Except String (List PyStmt)
  compileUnit : CompileUnit → Except String Nat
  runUnit : Nat → Ns → ExecEffect Ns

structure WState (Ns : Type) where
  entry : String
  display : String
  ns : Ns
deriving DecidableEq

/-- `AdeqtWidget.write` (adeqt.py lines 233-237): append-only sink. -/
def write {Ns : Type} (st : WState Ns) (text : String) : WState Ns :=
  { st with display := st.display ++ text }

/-- The `for code_obj in code_objs: exec(code_obj, self.namespace)` loop
with its surrounding `try/except` (lines 298-304): units run in order,
their stream output lands in the scrollback, and the first runtime fault
appends `''.join(format_exception(...)).rstrip() + '\n'` and stops the
remaining units. -/
def execUnits {Ns : Type} (env : PyEnv Ns) (objs : List Nat) (st : WState Ns) :
    WState Ns × List Event :=
  match objs with
  | [] => (st, [])
  | c :: rest =>
      let r := env.runUnit c st.ns
      let st1 : WState Ns := { st with display := st.display ++ r.output, ns := r.nsAfter }
      match r.error with
      | some tb => (write st1 (pyRstrip tb ++ "\n"), [Event.execUnit c])
      | none =>
          match execUnits env rest st1 with
          | (st2, evs) => (st2, Event.execUnit c :: evs)

/-- Lines 295-304: after every unit byte-compiled, clear the entry buffer
and execute the code objects.  (The stream substitution the execution is
wrapped in, `capture_output`, is modelled separately below; it does not
touch the entry/display/namespace state.) -/
def finishExec {Ns : Type} (env : PyEnv Ns) (st1 : WState Ns) (prompt : String)
    (us : List CompileUnit) (cs : List Nat) : WState Ns × List Event :=
  match execUnits env cs { st1 with entry := "" } with
  | (st2, evs) =>
      (st2, [Event.wrote prompt, Event.compiledUnits us, Event.clearedEntry] ++ evs)

/-- `AdeqtWidget.run` (adeqt.py lines 260-304).  The branch on
`body.getLast?` covers both source tests: `getLast? = none` is
`if not mod.body` (lines 272-275) and the two `some` shapes are the
`isinstance(mod.body[-1], ast.Expr)` split (lines 277-293); `dropLast`
is the state of `mod.body` after `mod.body.pop()`. -/
def run {Ns : Type} (env : PyEnv Ns) (st : WState Ns) :
    Option (WState Ns × List Event) :=
  let code := st.entry
  match add_prompt code with
  | none => none
  | some prompt =>
    let st1 := write st prompt
    match env.parse code with
    | Except.error es =>
        some (write st1 (pyRstrip es ++ "\n"),
              [Event.wrote prompt, Event.wrote (pyRstrip es ++ "\n")])
    | Except.ok body =>
      match body.getLast? with
      | none =>
          some ({ st1 with entry := "" }, [Event.wrote prompt, Event.clearedEntry])
      | some (PyStmt.exprStmt t) =>
          match env.compileUnit (CompileUnit.execModule body.dropLast) with
          | Except.error es =>
              some (write st1 (pyRstrip es ++ "\n"),
                    [Event.wrote prompt, Event.wrote (pyRstrip es ++ "\n")])
          | Except.ok c1 =>
            match env.compileUnit (CompileUnit.single (PyStmt.exprStmt t)) with
            | Except.error es =>
                some (write st1 (pyRstrip es ++ "\n"),
                      [Event.wrote prompt, Event.wrote (pyRstrip es ++ "\n")])
            | Except.ok c2 =>
                some (finishExec env st1 prompt
                  [CompileUnit.execModule body.dropLast,
                   CompileUnit.single (PyStmt.exprStmt t)] [c1, c2])
      | some (PyStmt.otherStmt _t) =>
          match env.compileUnit (CompileUnit.execModule body) with
          | Except.error es =>
              some (write st1 (pyRstrip es ++ "\n"),
                    [Event.wrote prompt, Event.wrote (pyRstrip es ++ "\n")])
          | Except.ok c =>
              some (finishExec env st1 prompt [CompileUnit.execModule body] [c])

/-- The compile units `run` prepares for a non-empty parsed body
(lines 277-293): the split pair when the last statement is a bare
expression, the whole module otherwise. -/
def plannedUnits (body : List PyStmt) : List CompileUnit :=
  match body.getLast? with
  | some (PyStmt.exprStmt t) =>
      [CompileUnit.execModule body.dropLast, CompileUnit.single (PyStmt.exprStmt t)]
  | _ => [CompileUnit.execModule body]

/-- The code objects executed, read off an event trace. -/
def execedUnits (evs : List Event) : List Nat :=
  evs.filterMap (fun e => match e with
    | Event.execUnit c => some c
    | _ => none)

/-- Every `execUnit` event is preceded by a `clearedEntry` event. -/
def clearedBeforeExec (evs : List Event) : Prop :=
  ∀ i c, evs.get? i = some (Event.execUnit c) →
    ∃ j, j < i ∧ evs.get? j = some Event.clearedEntry

/-! ## `capture_output` (adeqt.py lines 245-258)

```python
@contextmanager
def capture_output(self):
    save_stdout = sys.stdout
    save_stderr = sys.stderr
    save_displayhook = sys.displayhook
    sys.stdout = self.output_stream
    sys.stderr = self.output_stream
    sys.displayhook = self.displayhook
    try:
        yield
    finally:
        sys.stdout = save_stdout
        sys.stderr = save_stderr
        sys.displayhook = save_displayhook
```

The ambient interpreter state is `Sys`: the two stream slots (both set to
the widget's `output_stream`), the displayhook slot, and an `other`
component for everything else the executed body may touch.  The body is an
arbitrary function from the substituted state to a final state and an
optional escaping exception; the `finally` block runs in both cases, so the
model restores the three slots unconditionally and passes the exception
through. -/

structure Sys (τ η ω : Type) where
  stdout : τ
  stderr : τ
  displayhook : η
  other : ω

def capture_output {τ η ω ε : Type} (output_stream : τ) (displayhook : η)
    (body : Sys τ η ω → Sys τ η ω × Option ε) (s : Sys τ η ω) :
    Sys τ η ω × Option ε :=
  let save_stdout := s.stdout
  let save_stderr := s.stderr
  let save_displayhook := s.displayhook
  let s1 : Sys τ η ω :=
    { s with stdout := output_stream, stderr := output_stream,
             displayhook := displayhook }
  match body s1 with
  | (s2, e) =>
      ({ s2 with stdout := save_stdout, stderr := save_stderr,
                 displayhook := save_displayhook }, e)

/-! ## Theorems for the claims -/

/-- C4: the dotted-name extraction returns `("foo","bar","")` for
`"foo.bar."`, `("foo","bar")` for `"foo.bar"`, and `("",)` for `"1+2"`. -/
theorem claim_C4 :
    get_dotted_name "foo.bar." = ["foo", "bar", ""] ∧
    get_dotted_name "foo.bar" = ["foo", "bar"] ∧
    get_dotted_name "1+2" = [""] :=
  ⟨by decide, by decide, by decide⟩

/-- C3: `capture_output` hands the body an interpreter state whose stdout
and stderr are the widget's output stream and whose displayhook is the
widget's hook, and on every exit path — the body finishing normally
(`none`) or raising (`some e`) — the three slots are restored to their
prior values, the escaping exception is passed through, and the rest of
the interpreter state is whatever the body left. -/
theorem claim_C3 {τ η ω ε : Type} (os : τ) (hk : η)
    (body : Sys τ η ω → Sys τ η ω × Option ε) (s : Sys τ η ω) :
    (capture_output os hk body s).1.stdout = s.stdout ∧
    (capture_output os hk body s).1.stderr = s.stderr ∧
    (capture_output os hk body s).1.displayhook = s.displayhook ∧
    (capture_output os hk body s).2 =
      (body { s with stdout := os, stderr := os, displayhook := hk }).2 ∧
    (capture_output os hk body s).1.other =
      (body { s with stdout := os, stderr := os, displayhook := hk }).1.other := by
  cases h : body { s with stdout := os, stderr := os, displayhook := hk } with
  | mk s2 e => simp [capture_output, h]

/-- C5 counterexample: the claim that any token other than a NAME or a dot
resets the accumulated chain — in particular that a chain separated from
earlier names by a line break drops those earlier names — fails at the
input `"foo\nbar"`: the NEWLINE token between the two names is skipped, so
the earlier name `"foo"` survives into the result. -/
theorem claim_C5_counterexample :
    get_dotted_name "foo\nbar" = ["foo", "bar"] ∧
    "foo" ∈ get_dotted_name "foo\nbar" :=
  ⟨by decide, by decide⟩

/-- C5 (amended): every token other than a NAME, a dot, or one of the
end-of-line tokens NEWLINE/NL/ENDMARKER (which are skipped) resets the
accumulated name list and the trailing-dot flag, so the names accumulated
before such a token never reach the result: the fold restarts from the
empty state on the suffix after the resetting token. -/
theorem claim_C5 (ts1 ts2 : List TokenInfo) (t : TokenInfo)
    (st : List String × Bool)
    (h1 : t.type ≠ TokType.NAME) (h2 : t.type ≠ TokType.NEWLINE)
    (h3 : t.type ≠ TokType.NL) (h4 : t.type ≠ TokType.ENDMARKER)
    (h5 : t.exact_type ≠ TokType.DOT) :
    (ts1 ++ t :: ts2).foldl dotted_step st = ts2.foldl dotted_step ([], false) := by
  rw [List.foldl_append, List.foldl_cons]
  have hreset : dotted_step (ts1.foldl dotted_step st) t = ([], false) := by
    unfold dotted_step
    rw [if_neg h1, if_neg (by simp [h2, h3, h4]), if_neg h5]
  rw [hreset]

/-- C5 witness: a NUMBER token between two NAME tokens resets the fold, so
only the suffix after it contributes. -/
theorem claim_C5_witness :
    ([mkTok TokType.NAME "a" (1, 0) (1, 1)] ++
      mkTok TokType.NUMBER "1" (1, 1) (1, 2) ::
        [mkTok TokType.NAME "b" (1, 2) (1, 3)]).foldl dotted_step ([], false) =
    [mkTok TokType.NAME "b" (1, 2) (1, 3)].foldl dotted_step ([], false) :=
  claim_C5 _ _ _ _ (by decide) (by decide) (by decide) (by decide) (by decide)

/-- C6 counterexample: with `"print"` bound in the session namespace and
also present among the built-in names, the base-name candidate list
contains `"print"` twice — the code sorts the concatenation
`list(self.namespace) + dir(builtins)` without removing duplicates, so the
claimed duplicate removal fails. -/
theorem claim_C6_counterexample :
    find_child_names [("print", Obj.mk [])] (Obj.mk [("print", Obj.mk [])]) [] =
      ["print", "print"] ∧
    ¬ (find_child_names [("print", Obj.mk [])]
        (Obj.mk [("print", Obj.mk [])]) []).Nodup :=
  ⟨by decide, by decide⟩

/-- C6 (amended): when the attribute-chain prefix is empty, the completion
candidate list is the ascending-sorted concatenation of the names bound in
the session namespace and the built-in names — a permutation of the
concatenation, so duplicates are retained: a name bound both in the
namespace and in builtins occurs twice. -/
theorem claim_C6 (ns : List (String × Obj)) (builtins : Obj) :
    List.Perm (find_child_names ns builtins []) (ns.map Prod.fst ++ pyDir builtins) ∧
    List.Sorted strRel (find_child_names ns builtins []) := by
  constructor
  · simpa [find_child_names, pySorted] using
      List.perm_insertionSort strRel (ns.map Prod.fst ++ pyDir builtins)
  · simpa [find_child_names, pySorted] using
      List.sorted_insertionSort strRel (ns.map Prod.fst ++ pyDir builtins)

/-- A concrete object with attributes `name`, `_name`, `__name` for the
C7 ordering example. -/
def exObj : Obj :=
  Obj.mk [("name", Obj.mk []), ("_name", Obj.mk []), ("__name", Obj.mk [])]

/-- C7: whenever a non-empty attribute chain resolves to an object, the
candidate list is exactly that object's attribute names sorted by the
two-part key (ascending count of leading underscores, then
case-insensitively): it equals the key-sort of `dir(obj)`, it is a
permutation of `dir(obj)`, and it is sorted under the key order. -/
theorem claim_C7 (ns : List (String × Obj)) (builtins : Obj) (p0 : String)
    (rest : List String) (obj0 o : Obj)
    (h0 : resolveFirst ns builtins p0 = some obj0)
    (h1 : resolveAttrs obj0 rest = some o) :
    find_child_names ns builtins (p0 :: rest) = (pyDir o).insertionSort childRel ∧
    List.Perm (find_child_names ns builtins (p0 :: rest)) (pyDir o) ∧
    List.Sorted childRel (find_child_names ns builtins (p0 :: rest)) := by
  have he : find_child_names ns builtins (p0 :: rest) =
      (pyDir o).insertionSort childRel := by
    simp only [find_child_names, h0, h1]
  refine ⟨he, ?_, ?_⟩
  · rw [he]; exact List.perm_insertionSort childRel (pyDir o)
  · rw [he]; exact List.sorted_insertionSort childRel (pyDir o)

/-- C7 witness: for the object with attributes `name`, `_name`, `__name`
reached through the chain `x.`, the candidate list is
`["name", "_name", "__name"]`. -/
theorem claim_C7_witness :
    resolveFirst [("x", exObj)] (Obj.mk []) "x" = some exObj ∧
    resolveAttrs exObj [] = some exObj ∧
    find_child_names [("x", exObj)] (Obj.mk []) ["x"] = ["name", "_name", "__name"] := by
  refine ⟨rfl, rfl, ?_⟩
  have h := claim_C7 [("x", exObj)] (Obj.mk []) "x" [] exObj exObj rfl rfl
  rw [h.1]
  decide

/-- A trivial runtime environment (parse succeeds with an empty body,
compilation succeeds, execution does nothing). -/
def envBlank : PyEnv Nat :=
  ⟨fun _ => Except.ok [], fun _ => Except.ok 0, fun _ n => ⟨"", n, none⟩⟩

/-- C9 (code bug): submitting a blank buffer does not echo anything —
`add_prompt("")` evaluates `lines[0]` on the empty list produced by
`''.rstrip().splitlines(keepends=True)` and raises `IndexError`, so `run`
dies before writing to the scrollback (even though `run` itself is
prepared to handle an empty parsed body at lines 272-275). -/
theorem claim_C9_bug :
    add_prompt "" = none ∧ run envBlank ⟨"", "", 0⟩ = none :=
  ⟨rfl, rfl⟩

/-- C8: whenever the underlying tokenizer fails with a truncation error,
`tokenize_maybe_incomplete` still returns a token sequence instead of
raising: the yielded tokens, followed by exactly one trailing
incomplete-marked STRING pseudo-token covering the unconsumed remainder
when that remainder is non-blank, and nothing extra when it is blank. -/
theorem claim_C8 (code : String) (toks : List TokenInfo)
    (h : generate_tokens code = (toks, true)) :
    ((!(untokenized code toks).isEmpty && !pyIsSpace (untokenized code toks)) = false →
        tokenize_maybe_incomplete code = toks) ∧
    ((!(untokenized code toks).isEmpty && !pyIsSpace (untokenized code toks)) = true →
        tokenize_maybe_incomplete code =
          toks ++ [⟨TokType.STRING, untokenized code toks, lastEnd toks,
                    ((pySplitlines code).length,
                     ((pySplitlines code).getLastD "").length), true⟩]) := by
  unfold tokenize_maybe_incomplete
  rw [h]
  constructor <;> intro hc <;> simp [hc]

/-- C8 witness: `"foo('bar"` tokenizes to `foo`, `(` and then hits the
unterminated string; the remainder `'bar` becomes the one trailing
pseudo-token. -/
theorem claim_C8_witness :
    tokenize_maybe_incomplete "foo('bar" =
      [mkTok TokType.NAME "foo" (1, 0) (1, 3), mkTok TokType.OP "(" (1, 3) (1, 4),
       ⟨TokType.STRING, "'bar", (1, 4), (1, 8), true⟩] := by
  have h := (claim_C8 "foo('bar"
      [mkTok TokType.NAME "foo" (1, 0) (1, 3), mkTok TokType.OP "(" (1, 3) (1, 4)]
      (by decide)).2 (by decide)
  exact h.trans (by decide)

/-! ## Structural invariants of the dotted-name extraction (C10) -/

/-- A Python identifier over the modelled alphabet: a non-empty string with
an identifier-start head and identifier characters after it. -/
def isIdentifier (s : String) : Bool :=
  match s.data with
  | [] => false
  | c :: cs => isIdentStart c && cs.all isIdentCont

theorem scanTokens_name_ident (fuel : Nat) :
    ∀ (l : List Char) (row col depth : Nat),
      ∀ t ∈ (scanTokens fuel l row col depth).1,
        t.type = TokType.NAME → isIdentifier t.string = true := by
  induction fuel with
  | zero =>
    intro l row col depth t ht
    simp [scanTokens] at ht
  | succ fuel ih =>
    intro l row col depth t ht hty
    cases l with
    | nil =>
      by_cases hd : 0 < depth
      · simp [scanTokens, hd] at ht
      · simp [scanTokens, hd] at ht
        subst ht
        simp [mkTok] at hty
    | cons c cs =>
      simp only [scanTokens] at ht
      split at ht
      · exact ih _ _ _ _ t ht hty
      split at ht
      · simp only [List.mem_cons] at ht
        rcases ht with rfl | hmem
        · by_cases hd : depth = 0 <;> simp [mkTok, hd] at hty
        · exact ih _ _ _ _ t hmem hty
      split at ht
      · simp only [List.mem_cons] at ht
        rcases ht with rfl | hmem
        · simp [mkTok] at hty
        · exact ih _ _ _ _ t hmem hty
      split at ht
      · rename_i hstart
        simp only [List.mem_cons] at ht
        rcases ht with rfl | hmem
        · simp only [mkTok, isIdentifier, hstart, Bool.true_and]
          exact List.all_eq_true.mpr (fun x hx => List.mem_takeWhile_imp hx)
        · exact ih _ _ _ _ t hmem hty
      split at ht
      · simp only [List.mem_cons] at ht
        rcases ht with rfl | hmem
        · simp [mkTok] at hty
        · exact ih _ _ _ _ t hmem hty
      split at ht
      · split at ht
        · split at ht
          · simp only [List.mem_cons] at ht
            rcases ht with rfl | hmem
            · simp [mkTok] at hty
            · exact ih _ _ _ _ t hmem hty
          · simp at ht
        · simp at ht
      · simp only [List.mem_cons] at ht
        rcases ht with rfl | hmem
        · simp [mkTok] at hty
        · exact ih _ _ _ _ t hmem hty

theorem tokenize_maybe_incomplete_name_ident (code : String) :
    ∀ t ∈ tokenize_maybe_incomplete code, t.type = TokType.NAME →
      isIdentifier t.string = true := by
  intro t ht hty
  unfold tokenize_maybe_incomplete at ht
  split at ht
  · rename_i toks heq
    exact scanTokens_name_ident _ _ _ _ _ t
      (by rw [show scanTokens (code.length + 1) code.data 1 0 0 = (toks, false) from heq]
          exact ht) hty
  · rename_i toks heq
    by_cases hcond :
        (!(untokenized code toks).isEmpty && !pyIsSpace (untokenized code toks)) = true
    swap
    · rw [Bool.not_eq_true] at hcond
      simp only [hcond, Bool.false_eq_true, if_false] at ht
      exact scanTokens_name_ident _ _ _ _ _ t
        (by rw [show scanTokens (code.length + 1) code.data 1 0 0 = (toks, true) from heq]
            exact ht) hty
    · simp only [hcond, if_true] at ht
      rcases List.mem_append.mp ht with hmem | hone
      · exact scanTokens_name_ident _ _ _ _ _ t
          (by rw [show scanTokens (code.length + 1) code.data 1 0 0 = (toks, true) from heq]
              exact hmem) hty
      · rcases List.mem_singleton.mp hone with rfl
        simp at hty

theorem foldl_dotted_step_ident (toks : List TokenInfo)
    (htoks : ∀ t ∈ toks, t.type = TokType.NAME → isIdentifier t.string = true) :
    ∀ st : List String × Bool, (∀ s ∈ st.1, isIdentifier s = true) →
      ∀ s ∈ (toks.foldl dotted_step st).1, isIdentifier s = true := by
  induction toks with
  | nil => intro st hst s hs; exact hst s hs
  | cons t ts ih =>
    intro st hst s hs
    rw [List.foldl_cons] at hs
    refine ih (fun u hu hty => htoks u (List.mem_cons_of_mem _ hu) hty)
      (dotted_step st t) ?_ s hs
    intro u hu
    unfold dotted_step at hu
    split at hu
    · rename_i hname
      rcases List.mem_append.mp hu with h | h
      · exact hst u h
      · rcases List.mem_singleton.mp h with rfl
        exact htoks t (List.mem_cons_self _ _) hname
    split at hu
    · exact hst u hu
    split at hu
    · exact hst u hu
    · simp at hu

/-- C10: for every input string, `get_dotted_name` returns a non-empty
list in which every element before the last is a non-empty identifier, and
the empty string can occur only as the final element — it is there exactly
when the fold over the tokens ends with the trailing-dot flag set or with
an empty accumulator (trailing dot, or no chain accumulated). -/
theorem claim_C10 (code : String) :
    get_dotted_name code ≠ [] ∧
    (∀ s ∈ (get_dotted_name code).dropLast, s ≠ "" ∧ isIdentifier s = true) ∧
    ((get_dotted_name code).getLast? = some "" ↔
      ((tokenize_maybe_incomplete code).foldl dotted_step ([], false)).2 = true ∨
      ((tokenize_maybe_incomplete code).foldl dotted_step ([], false)).1 = []) := by
  have hparts : ∀ s ∈ ((tokenize_maybe_incomplete code).foldl dotted_step ([], false)).1,
      isIdentifier s = true :=
    foldl_dotted_step_ident _ (tokenize_maybe_incomplete_name_ident code) ([], false)
      (by intro s hs; simp at hs)
  have hne : ∀ s : String, isIdentifier s = true → s ≠ "" := by
    intro s hid hemp
    subst hemp
    simp [isIdentifier] at hid
  set st := (tokenize_maybe_incomplete code).foldl dotted_step ([], false) with hstdef
  have hgdn : get_dotted_name code =
      if st.2 || st.1.isEmpty then st.1 ++ [""] else st.1 := rfl
  by_cases hc : (st.2 || st.1.isEmpty) = true
  · rw [hgdn, if_pos hc]
    refine ⟨by simp, ?_, ?_⟩
    · intro s hs
      rw [List.dropLast_concat] at hs
      exact ⟨hne s (hparts s hs), hparts s hs⟩
    · rw [List.getLast?_concat]
      constructor
      · intro _
        rcases (Bool.or_eq_true _ _).mp hc with h | h
        · exact Or.inl h
        · exact Or.inr (List.isEmpty_iff.mp h)
      · intro _
        rfl
  · rw [Bool.or_eq_true _ _, not_or] at hc
    obtain ⟨hc2, hc1⟩ := hc
    rw [hgdn, if_neg (by simp [Bool.not_eq_true] at hc2 hc1 ⊢; exact ⟨hc2, hc1⟩)]
    refine ⟨?_, ?_, ?_⟩
    · intro h
      exact hc1 (by rw [h]; rfl)
    · intro s hs
      have hmem := List.dropLast_subset _ hs
      exact ⟨hne s (hparts s hmem), hparts s hmem⟩
    · constructor
      · intro hlast
        exact absurd (hparts _ (List.mem_of_mem_getLast? hlast)) (by simp [isIdentifier])
      · intro h
        rcases h with h | h
        · exact absurd h hc2
        · exact absurd (by rw [h]; rfl : st.1.isEmpty = true) hc1

/-! ## Case analysis of `run` -/

/-- Exhaustive description of the outcomes of `run` when it returns:
parse failure, empty body, compile failure of one of the planned units,
and the two success shapes (split / whole program). -/
theorem run_cases {Ns : Type} (env : PyEnv Ns) (st st' : WState Ns)
    (evs : List Event) (h : run env st = some (st', evs)) :
    ∃ p, add_prompt st.entry = some p ∧
    ((∃ es, env.parse st.entry = Except.error es ∧
        st' = write (write st p) (pyRstrip es ++ "\n") ∧
        evs = [Event.wrote p, Event.wrote (pyRstrip es ++ "\n")]) ∨
     (∃ body, env.parse st.entry = Except.ok body ∧ body = [] ∧
        st' = { write st p with entry := "" } ∧
        evs = [Event.wrote p, Event.clearedEntry]) ∨
     (∃ body, env.parse st.entry = Except.ok body ∧ body ≠ [] ∧
        (∃ u ∈ plannedUnits body, ∃ es0, env.compileUnit u = Except.error es0) ∧
        (∃ es, st' = write (write st p) (pyRstrip es ++ "\n") ∧
          evs = [Event.wrote p, Event.wrote (pyRstrip es ++ "\n")])) ∨
     (∃ body t c1 c2, env.parse st.entry = Except.ok body ∧
        body.getLast? = some (PyStmt.exprStmt t) ∧
        env.compileUnit (CompileUnit.execModule body.dropLast) = Except.ok c1 ∧
        env.compileUnit (CompileUnit.single (PyStmt.exprStmt t)) = Except.ok c2 ∧
        (st', evs) = finishExec env (write st p) p
          [CompileUnit.execModule body.dropLast,
           CompileUnit.single (PyStmt.exprStmt t)] [c1, c2]) ∨
     (∃ body t c, env.parse st.entry = Except.ok body ∧
        body.getLast? = some (PyStmt.otherStmt t) ∧
        env.compileUnit (CompileUnit.execModule body) = Except.ok c ∧
        (st', evs) = finishExec env (write st p) p
          [CompileUnit.execModule body] [c])) := by
  unfold run at h
  dsimp only at h
  split at h
  · exact absurd h (by simp)
  rename_i p hp
  refine ⟨p, hp, ?_⟩
  split at h
  · rename_i es hes
    simp only [Option.some.injEq, Prod.mk.injEq] at h
    exact Or.inl ⟨es, hes, h.1.symm, h.2.symm⟩
  rename_i body hbody
  split at h
  · rename_i hlast
    simp only [Option.some.injEq, Prod.mk.injEq] at h
    exact Or.inr (Or.inl ⟨body, hbody, List.getLast?_eq_none_iff.mp hlast,
      h.1.symm, h.2.symm⟩)
  · rename_i t hlast
    split at h
    · rename_i es hc1
      simp only [Option.some.injEq, Prod.mk.injEq] at h
      refine Or.inr (Or.inr (Or.inl ⟨body, hbody, ?_, ?_, es, h.1.symm, h.2.symm⟩))
      · intro hnil
        rw [hnil] at hlast
        simp at hlast
      · refine ⟨CompileUnit.execModule body.dropLast, ?_, es, hc1⟩
        simp [plannedUnits, hlast]
    rename_i c1 hc1
    split at h
    · rename_i es hc2
      simp only [Option.some.injEq, Prod.mk.injEq] at h
      refine Or.inr (Or.inr (Or.inl ⟨body, hbody, ?_, ?_, es, h.1.symm, h.2.symm⟩))
      · intro hnil
        rw [hnil] at hlast
        simp at hlast
      · refine ⟨CompileUnit.single (PyStmt.exprStmt t), ?_, es, hc2⟩
        simp [plannedUnits, hlast]
    rename_i c2 hc2
    simp only [Option.some.injEq] at h
    exact Or.inr (Or.inr (Or.inr (Or.inl ⟨body, t, c1, c2, hbody, hlast, hc1, hc2,
      h.symm⟩)))
  · rename_i t hlast
    split at h
    · rename_i es hc
      simp only [Option.some.injEq, Prod.mk.injEq] at h
      refine Or.inr (Or.inr (Or.inl ⟨body, hbody, ?_, ?_, es, h.1.symm, h.2.symm⟩))
      · intro hnil
        rw [hnil] at hlast
        simp at hlast
      · refine ⟨CompileUnit.execModule body, ?_, es, hc⟩
        simp [plannedUnits, hlast]
    rename_i c hc
    simp only [Option.some.injEq] at h
    exact Or.inr (Or.inr (Or.inr (Or.inr ⟨body, t, c, hbody, hlast, hc, h.symm⟩)))

theorem write_entry {Ns : Type} (st : WState Ns) (s : String) :
    (write st s).entry = st.entry := rfl

theorem execUnits_entry {Ns : Type} (env : PyEnv Ns) (objs : List Nat) :
    ∀ st : WState Ns, (execUnits env objs st).1.entry = st.entry := by
  induction objs with
  | nil => intro st; rfl
  | cons c rest ih =>
    intro st
    unfold execUnits
    dsimp only
    split
    · rfl
    · exact ih _

theorem execUnits_events {Ns : Type} (env : PyEnv Ns) (objs : List Nat) :
    ∀ st : WState Ns, ∀ e ∈ (execUnits env objs st).2, ∃ c, e = Event.execUnit c := by
  induction objs with
  | nil => intro st e he; simp [execUnits] at he
  | cons c rest ih =>
    intro st e he
    unfold execUnits at he
    dsimp only at he
    split at he
    · rcases List.mem_singleton.mp he with rfl
      exact ⟨c, rfl⟩
    · rcases List.mem_cons.mp he with rfl | hmem
      · exact ⟨c, rfl⟩
      · exact ih _ e hmem

theorem execUnits_noerr {Ns : Type} (env : PyEnv Ns)
    (hne : ∀ c ns, (env.runUnit c ns).error = none) (objs : List Nat) :
    ∀ st : WState Ns, (execUnits env objs st).2 = objs.map Event.execUnit := by
  induction objs with
  | nil => intro st; rfl
  | cons c rest ih =>
    intro st
    unfold execUnits
    dsimp only
    rw [hne c st.ns]
    dsimp only
    rw [ih _, List.map_cons]

theorem finishExec_parts {Ns : Type} (env : PyEnv Ns) (st1 : WState Ns)
    (p : String) (us : List CompileUnit) (cs : List Nat) :
    finishExec env st1 p us cs =
      ((execUnits env cs { st1 with entry := "" }).1,
       [Event.wrote p, Event.compiledUnits us, Event.clearedEntry] ++
         (execUnits env cs { st1 with entry := "" }).2) := by
  unfold finishExec
  cases hx : execUnits env cs { st1 with entry := "" } with
  | mk st2 evs2 => simp [hx]

theorem finishExec_entry {Ns : Type} (env : PyEnv Ns) (st1 : WState Ns)
    (p : String) (us : List CompileUnit) (cs : List Nat) :
    (finishExec env st1 p us cs).1.entry = "" := by
  rw [finishExec_parts]
  exact execUnits_entry env cs _

theorem finishExec_count_cleared {Ns : Type} (env : PyEnv Ns) (st1 : WState Ns)
    (p : String) (us : List CompileUnit) (cs : List Nat) :
    (finishExec env st1 p us cs).2.count Event.clearedEntry = 1 := by
  rw [finishExec_parts]
  have h0 : (execUnits env cs { st1 with entry := "" }).2.count Event.clearedEntry = 0 := by
    refine List.count_eq_zero.mpr (fun hmem => ?_)
    rcases execUnits_events env cs _ _ hmem with ⟨c, hc⟩
    cases hc
  simp [List.count_append, List.count_cons, h0]

theorem finishExec_clearedBeforeExec {Ns : Type} (env : PyEnv Ns) (st1 : WState Ns)
    (p : String) (us : List CompileUnit) (cs : List Nat) :
    clearedBeforeExec (finishExec env st1 p us cs).2 := by
  rw [finishExec_parts]
  intro i c hi
  match i with
  | 0 => simp at hi
  | 1 => simp at hi
  | 2 => simp at hi
  | (n + 3) => exact ⟨2, by omega, rfl⟩

/-- C1: whenever `run` returns, the entry buffer is untouched on a parse
failure and on a compile failure of any planned unit (with no clear event
at all), and whenever parsing succeeds and every planned unit compiles
(including the no-unit empty-body case) the buffer ends empty, exactly one
clear event occurs, and it precedes every execution event — for every
runtime behaviour of the executed units, so a runtime exception can
neither restore nor retain the buffer text. -/
theorem claim_C1 {Ns : Type} (env : PyEnv Ns) (st st' : WState Ns)
    (evs : List Event) (hrun : run env st = some (st', evs)) :
    (∀ es, env.parse st.entry = Except.error es →
      st'.entry = st.entry ∧ evs.count Event.clearedEntry = 0) ∧
    (∀ body, env.parse st.entry = Except.ok body → body ≠ [] →
      (∃ u ∈ plannedUnits body, ∃ es, env.compileUnit u = Except.error es) →
      st'.entry = st.entry ∧ evs.count Event.clearedEntry = 0) ∧
    (∀ body, env.parse st.entry = Except.ok body →
      (body = [] ∨ ∀ u ∈ plannedUnits body, ∃ c, env.compileUnit u = Except.ok c) →
      st'.entry = "" ∧ evs.count Event.clearedEntry = 1 ∧ clearedBeforeExec evs) := by
  obtain ⟨p, hp, hcase⟩ := run_cases env st st' evs hrun
  refine ⟨?_, ?_, ?_⟩
  · intro es hes
    rcases hcase with ⟨es', hes', hst', hevs⟩ | ⟨body, hok, _⟩ |
      ⟨body, hok, _⟩ | ⟨body, t, c1, c2, hok, _⟩ | ⟨body, t, c, hok, _⟩
    · subst hst' hevs
      exact ⟨rfl, by simp⟩
    all_goals rw [hes] at hok; cases hok
  · intro body hok hne ⟨u, hu, es, herr⟩
    rcases hcase with ⟨es', hes', _⟩ | ⟨body2, hok2, hnil, hst', hevs⟩ |
      ⟨body2, hok2, _, _, es', hst', hevs⟩ |
      ⟨body2, t, c1, c2, hok2, hlast, hc1, hc2, hfe⟩ |
      ⟨body2, t, c, hok2, hlast, hc, hfe⟩
    · rw [hok] at hes'; cases hes'
    · rw [hok] at hok2
      injection hok2 with hb
      exact absurd (hb ▸ hnil) hne
    · subst hst' hevs
      exact ⟨rfl, by simp⟩
    · rw [hok] at hok2
      injection hok2 with hb
      subst hb
      rw [plannedUnits, hlast] at hu
      rcases List.mem_cons.mp hu with rfl | hu2
      · rw [hc1] at herr; cases herr
      · rcases List.mem_singleton.mp hu2 with rfl
        rw [hc2] at herr; cases herr
    · rw [hok] at hok2
      injection hok2 with hb
      subst hb
      rw [plannedUnits, hlast] at hu
      rcases List.mem_singleton.mp hu with rfl
      rw [hc] at herr; cases herr
  · intro body hok hcomp
    rcases hcase with ⟨es', hes', _⟩ | ⟨body2, hok2, hnil, hst', hevs⟩ |
      ⟨body2, hok2, hne2, ⟨u, hu, es0, herr⟩, _⟩ |
      ⟨body2, t, c1, c2, hok2, hlast, hc1, hc2, hfe⟩ |
      ⟨body2, t, c, hok2, hlast, hc, hfe⟩
    · rw [hok] at hes'; cases hes'
    · subst hst' hevs
      refine ⟨rfl, by simp, ?_⟩
      intro i c hi
      match i with
      | 0 => simp at hi
      | 1 => simp at hi
      | (n + 2) => simp at hi
    · rw [hok] at hok2
      injection hok2 with hb
      subst hb
      rcases hcomp with hnil | hall
      · exact absurd hnil hne2
      · rcases hall u hu with ⟨c0, hc0⟩
        rw [hc0] at herr; cases herr
    · have h1 : st' = (finishExec env (write st p) p
          [CompileUnit.execModule body2.dropLast,
           CompileUnit.single (PyStmt.exprStmt t)] [c1, c2]).1 := by
        rw [← hfe]
      have h2 : evs = (finishExec env (write st p) p
          [CompileUnit.execModule body2.dropLast,
           CompileUnit.single (PyStmt.exprStmt t)] [c1, c2]).2 := by
        rw [← hfe]
      subst h1 h2
      exact ⟨finishExec_entry _ _ _ _ _, finishExec_count_cleared _ _ _ _ _,
        finishExec_clearedBeforeExec _ _ _ _ _⟩
    · have h1 : st' = (finishExec env (write st p) p
          [CompileUnit.execModule body2] [c]).1 := by
        rw [← hfe]
      have h2 : evs = (finishExec env (write st p) p
          [CompileUnit.execModule body2] [c]).2 := by
        rw [← hfe]
      subst h1 h2
      exact ⟨finishExec_entry _ _ _ _ _, finishExec_count_cleared _ _ _ _ _,
        finishExec_clearedBeforeExec _ _ _ _ _⟩

theorem execedUnits_map (cs : List Nat) :
    execedUnits (cs.map Event.execUnit) = cs := by
  induction cs with
  | nil => rfl
  | cons c rest ih =>
    simp only [List.map_cons, execedUnits, List.filterMap_cons] at ih ⊢
    rw [ih]

theorem execedUnits_finishExec {Ns : Type} (env : PyEnv Ns)
    (hne : ∀ c ns, (env.runUnit c ns).error = none) (st1 : WState Ns)
    (p : String) (us : List CompileUnit) (cs : List Nat) :
    execedUnits (finishExec env st1 p us cs).2 = cs := by
  rw [finishExec_parts, execUnits_noerr env hne]
  show execedUnits (Event.wrote p :: Event.compiledUnits us :: Event.clearedEntry ::
    cs.map Event.execUnit) = cs
  simp only [execedUnits, List.filterMap_cons]
  exact execedUnits_map cs

/-- C2: when the parsed program is non-empty and its final statement is a
bare expression, `run` prepares exactly the two compile units "program
minus the final expression" and "the isolated expression as an interactive
unit", and (absent runtime faults) executes exactly their two code objects
in that order; when the final statement is not a bare expression, `run`
prepares the single whole-program unit and executes exactly its code
object. -/
theorem claim_C2 {Ns : Type} (env : PyEnv Ns) (st st' : WState Ns)
    (evs : List Event) (body : List PyStmt)
    (hrun : run env st = some (st', evs))
    (hok : env.parse st.entry = Except.ok body) (hne : body ≠ []) :
    (∀ t c1 c2, body.getLast? = some (PyStmt.exprStmt t) →
      env.compileUnit (CompileUnit.execModule body.dropLast) = Except.ok c1 →
      env.compileUnit (CompileUnit.single (PyStmt.exprStmt t)) = Except.ok c2 →
      Event.compiledUnits [CompileUnit.execModule body.dropLast,
        CompileUnit.single (PyStmt.exprStmt t)] ∈ evs ∧
      ((∀ c ns, (env.runUnit c ns).error = none) → execedUnits evs = [c1, c2])) ∧
    (∀ t c, body.getLast? = some (PyStmt.otherStmt t) →
      env.compileUnit (CompileUnit.execModule body) = Except.ok c →
      Event.compiledUnits [CompileUnit.execModule body] ∈ evs ∧
      ((∀ c0 ns, (env.runUnit c0 ns).error = none) → execedUnits evs = [c])) := by
  obtain ⟨p, hp, hcase⟩ := run_cases env st st' evs hrun
  constructor
  · intro t c1 c2 hlast hc1 hc2
    rcases hcase with ⟨es', hes', _⟩ | ⟨body2, hok2, hnil, _⟩ |
      ⟨body2, hok2, _, ⟨u, hu, es0, herr⟩, _⟩ |
      ⟨body2, t2, c1', c2', hok2, hlast2, hc1', hc2', hfe⟩ |
      ⟨body2, t2, c', hok2, hlast2, hc', hfe⟩
    · rw [hok] at hes'; cases hes'
    · rw [hok] at hok2
      injection hok2 with hb
      exact absurd (hb ▸ hnil) hne
    · rw [hok] at hok2
      injection hok2 with hb
      subst hb
      rw [plannedUnits, hlast] at hu
      rcases List.mem_cons.mp hu with rfl | hu2
      · rw [hc1] at herr; cases herr
      · rcases List.mem_singleton.mp hu2 with rfl
        rw [hc2] at herr; cases herr
    · rw [hok] at hok2
      injection hok2 with hb
      subst hb
      rw [hlast] at hlast2
      injection hlast2 with hx
      injection hx with hx
      subst hx
      rw [hc1] at hc1'
      injection hc1' with h1
      subst h1
      rw [hc2] at hc2'
      injection hc2' with h2
      subst h2
      have hevs := congrArg Prod.snd hfe
      dsimp only at hevs
      constructor
      · rw [hevs, finishExec_parts]
        simp
      · intro hnerr
        rw [hevs, execedUnits_finishExec env hnerr]
    · rw [hok] at hok2
      injection hok2 with hb
      subst hb
      rw [hlast] at hlast2
      injection hlast2 with hx
      cases hx
  · intro t c hlast hc
    rcases hcase with ⟨es', hes', _⟩ | ⟨body2, hok2, hnil, _⟩ |
      ⟨body2, hok2, _, ⟨u, hu, es0, herr⟩, _⟩ |
      ⟨body2, t2, c1', c2', hok2, hlast2, hc1', hc2', hfe⟩ |
      ⟨body2, t2, c', hok2, hlast2, hc', hfe⟩
    · rw [hok] at hes'; cases hes'
    · rw [hok] at hok2
      injection hok2 with hb
      exact absurd (hb ▸ hnil) hne
    · rw [hok] at hok2
      injection hok2 with hb
      subst hb
      rw [plannedUnits, hlast] at hu
      rcases List.mem_singleton.mp hu with rfl
      rw [hc] at herr; cases herr
    · rw [hok] at hok2
      injection hok2 with hb
      subst hb
      rw [hlast] at hlast2
      injection hlast2 with hx
      cases hx
    · rw [hok] at hok2
      injection hok2 with hb
      subst hb
      rw [hlast] at hlast2
      injection hlast2 with hx
      injection hx with hx
      subst hx
      rw [hc] at hc'
      injection hc' with h1
      subst h1
      have hevs := congrArg Prod.snd hfe
      dsimp only at hevs
      constructor
      · rw [hevs, finishExec_parts]
        simp
      · intro hnerr
        rw [hevs, execedUnits_finishExec env hnerr]

/-- A concrete runtime for the pipeline witnesses: the buffer parses to a
statement followed by a bare expression, both units compile (to code
objects 10 and 20), and execution succeeds. -/
def envRunOk : PyEnv Nat :=
  ⟨fun _ => Except.ok [PyStmt.otherStmt 0, PyStmt.exprStmt 1],
   fun u => match u with
     | CompileUnit.execModule _ => Except.ok 10
     | CompileUnit.single _ => Except.ok 20,
   fun c n => ⟨"", n + c, none⟩⟩

def stRun : WState Nat := ⟨"x = 1\nx + 1", "", 0⟩

/-- C1 witness: on the concrete two-statement buffer whose units all
compile, `run` empties the buffer, emits exactly one clear event, and the
clear precedes every execution event. -/
theorem claim_C1_witness :
    ∃ pr, run envRunOk stRun = some pr ∧
      pr.1.entry = "" ∧ pr.2.count Event.clearedEntry = 1 ∧
      clearedBeforeExec pr.2 := by
  cases hr : run envRunOk stRun with
  | none => exact absurd hr (by decide)
  | some pr =>
    obtain ⟨st', evs⟩ := pr
    have h := (claim_C1 envRunOk stRun st' evs hr).2.2
      [PyStmt.otherStmt 0, PyStmt.exprStmt 1] rfl
      (Or.inr (by
        intro u hu
        have hu' : u ∈ [CompileUnit.execModule [PyStmt.otherStmt 0],
            CompileUnit.single (PyStmt.exprStmt 1)] := hu
        rcases List.mem_cons.mp hu' with rfl | hu2
        · exact ⟨10, rfl⟩
        · rcases List.mem_singleton.mp hu2 with rfl
          exact ⟨20, rfl⟩))
    exact ⟨(st', evs), rfl, h.1, h.2.1, h.2.2⟩

/-- C2 witness: on the same concrete buffer, the prepared units are the
program minus the trailing expression plus the isolated expression, and
exactly their two code objects run, in order. -/
theorem claim_C2_witness :
    ∃ pr, run envRunOk stRun = some pr ∧
      Event.compiledUnits [CompileUnit.execModule [PyStmt.otherStmt 0],
        CompileUnit.single (PyStmt.exprStmt 1)] ∈ pr.2 ∧
      execedUnits pr.2 = [10, 20] := by
  cases hr : run envRunOk stRun with
  | none => exact absurd hr (by decide)
  | some pr =>
    obtain ⟨st', evs⟩ := pr
    have h := (claim_C2 envRunOk stRun st' evs
        [PyStmt.otherStmt 0, PyStmt.exprStmt 1] hr rfl (by decide)).1
      1 10 20 rfl rfl rfl
    exact ⟨(st', evs), rfl, h.1, h.2 (fun c ns => rfl)⟩
